import Mathlib

/-!
Verification of `src/diary/mlx_formatter.py` (MATLAB mlx HTML post-processor).

The HTML tree that BeautifulSoup's `html.parser` produces is embedded as the
inductive type `Dom` below.  Sibling chains are encoded in the node itself
(every constructor carries its `sib`ling, with `nil` ending a chain), so that a
"forest" of children is itself a `Dom` value and every traversal is plain
structural recursion.  Attributes are an association list; BeautifulSoup's
multi-valued `class` attribute is recovered by splitting the stored string on
spaces.  Pre-order (document-order) traversal of this encoding is: the node,
then its children chain, then its sibling chain — exactly the order in which
BeautifulSoup's `find_all` / `select` return matches.
-/

inductive Dom where
  | nil : Dom
  | elem (name : String) (attrs : List (String × String)) (children : Dom) (sib : Dom) : Dom
  | textNode (s : String) (sib : Dom) : Dom
  | commentNode (s : String) (sib : Dom) : Dom
deriving DecidableEq, Repr

/-- Python's whitespace characters (the set `str.strip()` and `str.split()`
treat as whitespace, restricted to ASCII, which is all these documents use). -/
def isPyWs (c : Char) : Bool :=
  c == ' ' || c == '\t' || c == '\n' || c == '\r' || c == '\x0b' || c == '\x0c'

/-- Python's `str.strip()`. -/
def pyStrip (s : String) : String :=
  String.mk (((s.toList.dropWhile isPyWs).reverse.dropWhile isPyWs).reverse)

/-- Split a character list at every occurrence of a separator character
(`"a\nb".split('\n') = ["a", "b"]`, `"".split('\n') = [""]`). -/
def splitOnCharAux (sep : Char) : List Char → List (List Char)
  | [] => [[]]
  | c :: rest =>
    let gs := splitOnCharAux sep rest
    if c == sep then [] :: gs
    else match gs with
      | g :: t => (c :: g) :: t
      | [] => [[c]]

/-- Python's `str.split(sep)` for a one-character separator. -/
def splitOnChar (sep : Char) (s : String) : List String :=
  (splitOnCharAux sep s.toList).map String.mk

/-- Python's `str.startswith(pre)`. -/
def strStarts (pre s : String) : Bool :=
  pre.toList.isPrefixOf s.toList

/-- Join strings with newlines (`'\n'.join(...)`). -/
def joinNl : List String → String
  | [] => ""
  | [s] => s
  | s :: rest => s ++ "\n" ++ joinNl rest

/-- Value of an attribute, `none` when the attribute is absent
(BeautifulSoup `tag.get(key)` / `tag.has_attr(key)` when paired with `Option.isSome`). -/
def lookupAttr (attrs : List (String × String)) (key : String) : Option String :=
  match attrs with
  | [] => none
  | (k, v) :: rest => if k == key then some v else lookupAttr rest key

/-- `tag.has_attr(key)`. -/
def hasAttrKey (attrs : List (String × String)) (key : String) : Bool :=
  (lookupAttr attrs key).isSome

/-- The multi-valued class list BeautifulSoup stores for the `class` attribute:
the attribute string split on whitespace (empty pieces discarded, as Python's
`str.split()` does).  An absent `class` attribute yields the empty list. -/
def classListOf (attrs : List (String × String)) : List String :=
  (splitOnChar ' ' ((lookupAttr attrs "class").getD "")).filter (fun p => p != "")

/-- Class matching as used by `find_all(name, cls)` and CSS class selectors:
the candidate class must be a member of the tag's class list. -/
def hasCls (attrs : List (String × String)) (c : String) : Bool :=
  (classListOf attrs).contains c

/-- Number of element nodes (in the node, its descendants and its siblings)
satisfying a predicate on tag name and attributes; pre-order count. -/
def countBy (p : String → List (String × String) → Bool) : Dom → Nat
  | .nil => 0
  | .elem nm attrs cs sib => (if p nm attrs then 1 else 0) + countBy p cs + countBy p sib
  | .textNode _ sib => countBy p sib
  | .commentNode _ sib => countBy p sib

/-- `get_text()` of a children chain: concatenation of all descendant text
nodes.  Comments are excluded (BeautifulSoup's `get_text` filters descendants
by exact type `NavigableString`, which excludes `Comment`). -/
def getTextChain : Dom → String
  | .nil => ""
  | .elem _ _ cs sib => getTextChain cs ++ getTextChain sib
  | .textNode s sib => s ++ getTextChain sib
  | .commentNode _ sib => getTextChain sib

/-- The `i`-th node of a sibling chain (still carrying its own tail). -/
def chainGet : Dom → Nat → Option Dom
  | .nil, _ => none
  | d, 0 => some d
  | .elem _ _ _ sib, n + 1 => chainGet sib n
  | .textNode _ sib, n + 1 => chainGet sib n
  | .commentNode _ sib, n + 1 => chainGet sib n

/-- Forget the sibling chain of a node (view it as a detached subtree). -/
def detach : Dom → Dom
  | .nil => .nil
  | .elem nm attrs cs _ => .elem nm attrs cs .nil
  | .textNode s _ => .textNode s .nil
  | .commentNode s _ => .commentNode s .nil

/-- The sibling chain hanging off a node. -/
def sibOf : Dom → Dom
  | .nil => .nil
  | .elem _ _ _ sib => sib
  | .textNode _ sib => sib
  | .commentNode _ sib => sib

/-- The detached node reached from a children chain by a path of child
indices: `[i]` is the `i`-th node of the chain, `i :: p` descends into the
`i`-th node's children. -/
def nodeAt (d : Dom) : List Nat → Option Dom
  | [] => none
  | i :: p =>
    match chainGet d i with
    | none => none
    | some n =>
      match p with
      | [] => some (detach n)
      | _ :: _ =>
        match n with
        | .elem _ _ cs _ => nodeAt cs p
        | _ => none

/-- Tag names and attribute lists of all element nodes, in document order
(pre-order). -/
def elemsInfo : Dom → List (String × List (String × String))
  | .nil => []
  | .elem nm attrs cs sib => (nm, attrs) :: (elemsInfo cs ++ elemsInfo sib)
  | .textNode _ sib => elemsInfo sib
  | .commentNode _ sib => elemsInfo sib

/-! ## Equation extractor (`convert_equations`, mlx_formatter.py lines 121-187) -/

/-- The sentinel marker opening the embedded MATLAB source comment. -/
def sentinel : String := "##### SOURCE BEGIN #####"

/-- The text of every comment node in document order
(`soup.findAll(text=lambda text: isinstance(text, Comment))`). -/
def commentsOf : Dom → List String
  | .nil => []
  | .elem _ _ cs sib => commentsOf cs ++ commentsOf sib
  | .textNode _ sib => commentsOf sib
  | .commentNode s sib => s :: commentsOf sib

/-- The loop of lines 127-130: iterate over all comments, keep the stripped
text of the last one whose stripped text starts with the sentinel. -/
def findMlSource (d : Dom) : Option String :=
  (commentsOf d).foldl
    (fun acc c => if strStarts sentinel (pyStrip c) then some (pyStrip c) else acc) none

/-- Lines 138-139: split the source into lines, strip each, keep those whose
first character is the `%` comment sigil. -/
def commentLinesOf (src : String) : List String :=
  ((splitOnChar '\n' src).map pyStrip).filter
    (fun l => match l.toList with
      | c :: _ => c == '%'
      | [] => false)

/-- Length of the maximal run of `$` characters at the head of the input. -/
def dollarRun : List Char → Nat
  | '$' :: rest => dollarRun rest + 1
  | _ => 0

/-- The lazy `.+?` part of the pattern `\$+.+?\$+` (with `re.DOTALL`, `.`
matches every character): consume at least one character, as few as possible,
until a `$` run of length ≥ 1 follows; return (characters consumed, length of
the following maximal `$` run, which the final greedy `\$+` consumes whole). -/
def lazyScan : List Char → Option (Nat × Nat)
  | [] => none
  | _ :: rest =>
    let c := dollarRun rest
    if c > 0 then some (1, c)
    else match lazyScan rest with
      | some (b, c2) => some (b + 1, c2)
      | none => none

/-- Backtracking over the leading greedy `\$+`: try a first-run length of `a`
dollars, longest first, and return the total match length on the first
success — exactly Python's backtracking order for `\$+.+?\$+`. -/
def tryFirst (s : List Char) : Nat → Option Nat
  | 0 => none
  | a + 1 =>
    match lazyScan (s.drop (a + 1)) with
    | some (b, c) => some ((a + 1) + b + c)
    | none => tryFirst s a

/-- Length of the leftmost match of `\$+.+?\$+` anchored at the head of `s`
(`none` when no match starts here). -/
def matchFrom (s : List Char) : Option Nat :=
  tryFirst s (dollarRun s)

/-- `re.findall(r'(\$+.+?\$+)', s, re.DOTALL)`: scan left to right; at each
position emit the leftmost match and resume after it, otherwise advance one
character.  The fuel argument (instantiated with the string length, an upper
bound on the number of scanning steps) keeps the recursion structural. -/
def findallAux : Nat → List Char → List String
  | 0, _ => []
  | _, [] => []
  | fuel + 1, ch :: rest =>
    match matchFrom (ch :: rest) with
    | some len => String.mk ((ch :: rest).take len) :: findallAux fuel ((ch :: rest).drop len)
    | none => findallAux fuel rest

/-- All matches of `\$+.+?\$+` in a string (document order). -/
def dollarMatches (s : String) : List String :=
  findallAux s.toList.length s.toList

/-- Lines 138-148: the ordered list of equation strings extracted from the
embedded MATLAB source (comment lines joined with newlines, then the regex). -/
def extractEquations (src : String) : List String :=
  dollarMatches (joinNl (commentLinesOf src))

/-- Line 184, `re.sub('(?<=\n)\%', ' ', s)`: every `%` immediately preceded by
a newline in the original string is replaced by a single space.  The
lookbehind inspects the original text, so the substitution is position-wise. -/
def subSigilSpace (s : String) : String :=
  String.mk (go '\x00' s.toList)
where
  go (prev : Char) : List Char → List Char
    | [] => []
    | c :: rest => (if c == '%' && prev == '\n' then ' ' else c) :: go c rest

/-- Lines 184-185: the cleanup the code applies to an equation string before
it becomes the replacement element's text: substitute a space for each
post-newline `%`, then delete all newlines. -/
def cleanupCode (s : String) : String :=
  String.mk (((subSigilSpace s).toList).filter (fun c => c != '\n'))

/-- The cleanup as the specification words it ("remove each comment sigil
character that immediately follows a newline", then remove newlines) — stated
from the spec, for comparison with `cleanupCode` which is read off the code. -/
def cleanupClaimed (s : String) : String :=
  String.mk ((go '\x00' s.toList).filter (fun c => c != '\n'))
where
  go (prev : Char) : List Char → List Char
    | [] => []
    | c :: rest =>
      if c == '%' && prev == '\n' then go c rest else c :: go c rest

/-- Lines 153-157: an equation placeholder is an `img` element with no
`class` attribute at all. -/
def isEqImg (nm : String) (attrs : List (String × String)) : Bool :=
  nm == "img" && !(hasAttrKey attrs "class")

/-- `len(equation_image_divs)`: number of class-less `img` elements in
document order. -/
def countEqImgs (d : Dom) : Nat :=
  countBy isEqImg d

/-- The replacement element built at lines 179-185:
`soup.new_tag('span', class_='math')` with the cleaned equation as its text.
BeautifulSoup's `new_tag` passes keyword arguments through as literal
attribute names (the `class_` → `class` translation exists only in the search
API), so the attribute is literally named `class_`. -/
def mathSpanDetached (eq : String) : Dom :=
  .elem "span" [("class_", "math")] (.textNode (cleanupCode eq) .nil) .nil

/-- The replacement loop of lines 176-187.  `replace_with` swaps the `k`-th
class-less `img` (in document order, the order of the `find_all` snapshot) for
the math span carrying `equations[k]`, for every `k < len(equations)`; imgs
beyond the equation list are left in place.  The counter threads the document
order through the traversal; `img` is a void element under `html.parser`
(it never has children), so the snapshot order coincides with this traversal
(theorems below assume `imgsVoid`). -/
def replaceImgs (eqs : List String) (k : Nat) : Dom → Dom × Nat
  | .nil => (.nil, k)
  | .elem nm attrs cs sib =>
    if isEqImg nm attrs then
      let (sib2, k2) := replaceImgs eqs (k + 1) sib
      if k < eqs.length then
        (.elem "span" [("class_", "math")] (.textNode (cleanupCode (eqs.getD k "")) .nil) sib2, k2)
      else
        (.elem nm attrs cs sib2, k2)
    else
      let (cs2, k1) := replaceImgs eqs k cs
      let (sib2, k2) := replaceImgs eqs k1 sib
      (.elem nm attrs cs2 sib2, k2)
  | .textNode s sib =>
    let (sib2, k2) := replaceImgs eqs k sib
    (.textNode s sib2, k2)
  | .commentNode s sib =>
    let (sib2, k2) := replaceImgs eqs k sib
    (.commentNode s sib2, k2)

/-- Every `img` element is void (childless) — guaranteed for every tree
`html.parser` produces, since HTML `img` is a void element. -/
def imgsVoid : Dom → Bool
  | .nil => true
  | .elem nm _ cs sib =>
    (!(nm == "img") || (match cs with | .nil => true | _ => false))
      && imgsVoid cs && imgsVoid sib
  | .textNode _ sib => imgsVoid sib
  | .commentNode _ sib => imgsVoid sib

/-- Outcome of `convert_equations`: the (possibly mutated) tree, whether the
missing-source warning of line 133 was printed (the function then returns the
tree untouched), whether the count-mismatch warning of lines 161-169 was
logged, and whether the replacement loop raised `IndexError`
(`equation_image_divs[i]` with `i` past the image list, which happens exactly
when there are more equations than placeholder images; the images replaced
before the raise stay replaced). -/
structure EqConvResult where
  doc : Dom
  sourceWarning : Bool
  mismatchWarning : Bool
  indexError : Bool
deriving DecidableEq, Repr

/-- `convert_equations` (lines 121-187).  Note that the count-mismatch branch
only logs: control falls through to the replacement loop regardless. -/
def convert_equations (d : Dom) : EqConvResult :=
  match findMlSource d with
  | none => ⟨d, true, false, false⟩
  | some src =>
    let eqs := extractEquations src
    let nImgs := countEqImgs d
    ⟨(replaceImgs eqs 0 d).1, false, eqs.length != nImgs, decide (nImgs < eqs.length)⟩

/-- Shift a path one sibling to the right (its head index grows by one). -/
def bumpPath : List Nat → List Nat
  | [] => []
  | i :: q => (i + 1) :: q

/-- Paths (in the sense of `nodeAt`) of all class-less `img` elements of a
children chain, in document order. -/
def eqImgPaths : Dom → List (List Nat)
  | .nil => []
  | .elem nm attrs cs sib =>
    (if isEqImg nm attrs then [[0]] else [])
      ++ (eqImgPaths cs).map (fun p => 0 :: p)
      ++ (eqImgPaths sib).map bumpPath
  | .textNode _ sib => (eqImgPaths sib).map bumpPath
  | .commentNode _ sib => (eqImgPaths sib).map bumpPath

/-! ## Anchor generator (`make_titles_into_anchors`, lines 111-119) -/

/-- A level-1 or level-2 heading (`soup.find_all(['h1', 'h2'])`). -/
def isHeadingName (nm : String) : Bool :=
  nm == "h1" || nm == "h2"

/-- The attributes of the wrapper link created at lines 117-118:
`soup.new_tag('a', id='anchor{n}', href='#', **{'class': 'local-anchor'})`. -/
def anchorAttrs (c : Nat) : List (String × String) :=
  [("id", "anchor" ++ toString c), ("href", "#"), ("class", "local-anchor")]

/-- The loop of lines 114-119: every `h1`/`h2` element, in document order, is
wrapped (`title.wrap(...)`) in a fresh link element whose id carries the
running counter, which starts at 1.  The counter threads document order
through the traversal, matching the `find_all` snapshot order (wrapping a
heading leaves every other snapshot element in place, so the snapshot loop
and this traversal agree; headings nested inside a wrapped heading are
wrapped afterwards, as in the snapshot order). -/
def wrapHeads (c : Nat) : Dom → Dom × Nat
  | .nil => (.nil, c)
  | .elem nm attrs cs sib =>
    if isHeadingName nm then
      let (cs2, c1) := wrapHeads (c + 1) cs
      let (sib2, c2) := wrapHeads c1 sib
      (.elem "a" (anchorAttrs c) (.elem nm attrs cs2 .nil) sib2, c2)
    else
      let (cs2, c1) := wrapHeads c cs
      let (sib2, c2) := wrapHeads c1 sib
      (.elem nm attrs cs2 sib2, c2)
  | .textNode s sib =>
    let (sib2, c2) := wrapHeads c sib
    (.textNode s sib2, c2)
  | .commentNode s sib =>
    let (sib2, c2) := wrapHeads c sib
    (.commentNode s sib2, c2)

/-- `make_titles_into_anchors` (lines 111-119); `title_count` starts at 1. -/
def make_titles_into_anchors (d : Dom) : Dom :=
  (wrapHeads 1 d).1

/-- An anchor link as the generator creates them: an `a` element carrying the
`local-anchor` class. -/
def isLocalAnchor (nm : String) (attrs : List (String × String)) : Bool :=
  nm == "a" && hasCls attrs "local-anchor"

/-- Is this element a local-anchor link whose children chain is exactly one
heading element (i.e. it directly wraps a heading)? -/
def isDirWrap (nm : String) (attrs : List (String × String)) : Dom → Bool
  | .elem nm2 _ _ .nil => isLocalAnchor nm attrs && isHeadingName nm2
  | _ => false

/-- The `(id, href)` pairs of all links that directly wrap a heading, in
document order. -/
def dirWraps : Dom → List (String × String)
  | .nil => []
  | .elem nm attrs cs sib =>
    (if isDirWrap nm attrs cs then
      [((lookupAttr attrs "id").getD "", (lookupAttr attrs "href").getD "")]
     else []) ++ dirWraps cs ++ dirWraps sib
  | .textNode _ sib => dirWraps sib
  | .commentNode _ sib => dirWraps sib

/-- Number of `h1`/`h2` heading elements (document order). -/
def headCount (d : Dom) : Nat :=
  countBy (fun nm _ => isHeadingName nm) d

/-- Number of local-anchor link elements. -/
def anchorCount (d : Dom) : Nat :=
  countBy isLocalAnchor d

/-- The expected `(id, href)` pairs: `anchor{c}`, `anchor{c+1}`, … with `#`
hrefs, `k` of them. -/
def anchorList (c : Nat) : Nat → List (String × String)
  | 0 => []
  | k + 1 => ("anchor" ++ toString c, "#") :: anchorList (c + 1) k

/-! ## Section splitter (`process_section`, lines 190-220) -/

/-- An output-marker block: `find_all('div', 'outputParagraph')`. -/
def isOP (nm : String) (attrs : List (String × String)) : Bool :=
  nm == "div" && hasCls attrs "outputParagraph"

/-- A code-line wrapper carrying the leftover `outputs` class:
`select('.inlineWrapper.outputs')` (any tag carrying both classes). -/
def isBothIWOut (nm : String) (attrs : List (String × String)) : Bool :=
  let _ := nm
  hasCls attrs "inlineWrapper" && hasCls attrs "outputs"

/-- A code line: `find_all('div', 'inlineWrapper')`. -/
def isIW (nm : String) (attrs : List (String × String)) : Bool :=
  nm == "div" && hasCls attrs "inlineWrapper"

/-- Remove every output-marker block (with everything inside it) from a
children chain: the tree-side effect of `output.extract()` for each block of
the `find_all` snapshot (lines 199-201). -/
def stripOP : Dom → Dom
  | .nil => .nil
  | .elem nm attrs cs sib =>
    if isOP nm attrs then stripOP sib
    else .elem nm attrs (stripOP cs) (stripOP sib)
  | .textNode s sib => .textNode s (stripOP sib)
  | .commentNode s sib => .commentNode s (stripOP sib)

/-- The extracted output fragments, in document order.  A fragment is the
matched block detached from the tree; output-marker blocks nested inside it
are extracted from it in turn (they follow it in the `find_all` snapshot), so
each fragment has its own matched descendants removed. -/
def collectOP : Dom → List Dom
  | .nil => []
  | .elem nm attrs cs sib =>
    if isOP nm attrs then
      .elem nm attrs (stripOP cs) .nil :: (collectOP cs ++ collectOP sib)
    else collectOP cs ++ collectOP sib
  | .textNode _ sib => collectOP sib
  | .commentNode _ sib => collectOP sib

/-- Replace the value of the `class` attribute by the single class
`inlineWrapper` (`line.attrs['class'] = 'inlineWrapper'`, line 209; Python's
dict assignment keeps the key's position). -/
def setClassIW (attrs : List (String × String)) : List (String × String) :=
  attrs.map (fun kv => if kv.1 == "class" then (kv.1, "inlineWrapper") else kv)

/-- Lines 205-209: every element carrying both the `inlineWrapper` and the
`outputs` class has its class attribute overwritten with `inlineWrapper`. -/
def normClass : Dom → Dom
  | .nil => .nil
  | .elem nm attrs cs sib =>
    .elem nm (if isBothIWOut nm attrs then setClassIW attrs else attrs)
      (normClass cs) (normClass sib)
  | .textNode s sib => .textNode s (normClass sib)
  | .commentNode s sib => .commentNode s (normClass sib)

/-- The `get_text()` of each `div.inlineWrapper` element in a children chain,
in document order — the emptiness data `trim_empty_code_lines` consults.
(Extraction only ever removes empty-text lines, so these texts are stable
over the whole trimming pass and can be computed up front.) -/
def iwTexts : Dom → List String
  | .nil => []
  | .elem nm attrs cs sib =>
    (if isIW nm attrs then [getTextChain cs] else []) ++ iwTexts cs ++ iwTexts sib
  | .textNode _ sib => iwTexts sib
  | .commentNode _ sib => iwTexts sib

/-- Number of `div.inlineWrapper` elements. -/
def countIW (d : Dom) : Nat :=
  countBy isIW d

/-- Remove the `div.inlineWrapper` lines whose document-order rank `r` (over
`N` lines in total) falls in the leading run (`r < a`) or the trailing run
(`N - b ≤ r`) of empty lines — the combined effect of the two `extract`
loops of `trim_empty_code_lines` (lines 226-236) on the tree.  The rank
counter threads document order through the traversal. -/
def removeIW (a b N : Nat) (r : Nat) : Dom → Dom × Nat
  | .nil => (.nil, r)
  | .elem nm attrs cs sib =>
    if isIW nm attrs then
      let cnt := 1 + countIW cs
      if r < a || N - b ≤ r then removeIW a b N (r + cnt) sib
      else
        let (cs2, _) := removeIW a b N (r + 1) cs
        let (sib2, r2) := removeIW a b N (r + cnt) sib
        (.elem nm attrs cs2 sib2, r2)
    else
      let (cs2, r1) := removeIW a b N r cs
      let (sib2, r2) := removeIW a b N r1 sib
      (.elem nm attrs cs2 sib2, r2)
  | .textNode s sib =>
    let (sib2, r2) := removeIW a b N r sib
    (.textNode s sib2, r2)
  | .commentNode s sib =>
    let (sib2, r2) := removeIW a b N r sib
    (.commentNode s sib2, r2)

/-- `trim_empty_code_lines` applied to one code-block container: compute the
line texts, the length `a` of the leading empty run (first loop: extract
while empty, break at the first non-empty line) and the length `b` of the
trailing empty run (second loop, over the reversed snapshot; lines already
extracted by the first loop are empty, so re-extracting them is a no-op),
then remove exactly those lines. -/
def trimContainer (cs : Dom) : Dom :=
  let ts := iwTexts cs
  let a := (ts.takeWhile (fun t => t == "")).length
  let b := (ts.reverse.takeWhile (fun t => t == "")).length
  (removeIW a b ts.length 0 cs).1

/-- Lines 212-213: apply `trim_empty_code_lines` to every `.LineNodeBlock`
container.  The source iterates over the snapshot of containers in document
order; trimming removes only empty-text lines, so on documents where the
containers are not nested inside each other's lines (the structure
`html.parser` yields for MATLAB exports) this is the same as the
innermost-first application used here. -/
def trimTree : Dom → Dom
  | .nil => .nil
  | .elem nm attrs cs sib =>
    let cs2 := trimTree cs
    .elem nm attrs (if hasCls attrs "LineNodeBlock" then trimContainer cs2 else cs2)
      (trimTree sib)
  | .textNode s sib => .textNode s (trimTree sib)
  | .commentNode s sib => .commentNode s (trimTree sib)

/-- `process_section` (lines 190-220): extract the output-marker blocks (they
become the right pane, in document order), normalize the leftover
`inlineWrapper outputs` class combination, trim empty code lines, and return
the section's (mutated) children chain together with the extracted fragments.
`encode_contents` serializes the children of the section / of each fragment;
the pair below is the tree-level content of that serialization. -/
def process_section (s : Dom) : Dom × List Dom :=
  match s with
  | .elem _ _ cs _ => (trimTree (normClass (stripOP cs)), collectOP cs)
  | _ => (.nil, [])

/-- Number of output-marker blocks among a section's descendants ("originally
present in that section"). -/
def countOPChildren (s : Dom) : Nat :=
  match s with
  | .elem _ _ cs _ => countBy isOP cs
  | _ => 0

/-! ## `trim_empty_code_lines` on the line sequence (lines 223-236) -/

/-- The first loop (lines 226-230): walk the snapshot in order, extract lines
whose text is empty, stop at the first non-empty line. -/
def dropLeadingEmpty : List String → List String
  | [] => []
  | t :: rest => if t == "" then dropLeadingEmpty rest else t :: rest

/-- `trim_empty_code_lines` as a function on the container's sequence of line
texts.  The second loop walks the reversed `find_all` snapshot extracting
empty lines until the first non-empty one; lines the first loop already
extracted are empty and sit at the tail of the reversed snapshot, and
re-extracting a detached line is a no-op, so the second loop is exactly
`dropLeadingEmpty` on the reverse of what remains. -/
def trim_empty_code_lines (lines : List String) : List String :=
  (dropLeadingEmpty (dropLeadingEmpty lines).reverse).reverse

/-! ## Title extraction (`convert`, lines 103-105) -/

/-- The first `title` element of the document, `none` when there is none
(`soup.title`). -/
def findTitleTag : Dom → Option Dom
  | .nil => none
  | .elem nm attrs cs sib =>
    if nm == "title" then some (.elem nm attrs cs .nil)
    else match findTitleTag cs with
      | some t => some t
      | none => findTitleTag sib
  | .textNode _ sib => findTitleTag sib
  | .commentNode _ sib => findTitleTag sib

/-- BeautifulSoup `Tag.string`: if the tag has exactly one child and it is a
string, that string; if the single child is itself a tag, its `.string`;
otherwise (no children, or several) `None`. -/
def tagString : Dom → Option String
  | .elem _ _ (.textNode s .nil) .nil => some s
  | .elem _ _ (.commentNode s .nil) .nil => some s
  | .elem _ _ (.elem nm2 attrs2 cs2 .nil) .nil => tagString (.elem nm2 attrs2 cs2 .nil)
  | _ => none

/-- Line 105, `title = soup.title.string`: when the document has no `title`
element, `soup.title` is `None` and the attribute access raises
`AttributeError`; otherwise the title value is `Tag.string`, which is `None`
(not the empty string) for an empty `<title></title>`. -/
def extractTitle (d : Dom) : Except String (Option String) :=
  match findTitleTag d with
  | none => .error "AttributeError"
  | some t => .ok (tagString t)

/-! ## Concrete documents used by the concrete-input theorems -/

/-- Embedded MATLAB source with a single equation `$x$`. -/
def srcOneEq : String := "##### SOURCE BEGIN #####\n% $x$\n##### SOURCE END #####"

/-- A document whose sentinel comment holds one equation but which has two
class-less `img` placeholders: the counts disagree (1 ≠ 2). -/
def dTwoImgsOneEq : Dom :=
  .elem "html" []
    (.commentNode srcOneEq
      (.elem "img" [("src", "eq1.png")] .nil
        (.elem "img" [("src", "eq2.png")] .nil .nil))) .nil

/-- What the code produces for `dTwoImgsOneEq`: the first placeholder is
replaced by a math span even though the counts disagree. -/
def dTwoImgsOneEqOut : Dom :=
  .elem "html" []
    (.commentNode srcOneEq
      (.elem "span" [("class_", "math")] (.textNode "$x$" .nil)
        (.elem "img" [("src", "eq2.png")] .nil .nil))) .nil

/-- Embedded MATLAB source with two equations, `$x$` and `$y$`. -/
def srcTwoEqs : String := "##### SOURCE BEGIN #####\n% $x$ and $y$\n##### SOURCE END #####"

/-- A document with two sentinel equations but a single placeholder image. -/
def dOneImgTwoEqs : Dom :=
  .elem "html" []
    (.commentNode srcTwoEqs (.elem "img" [("src", "eq1.png")] .nil .nil)) .nil

/-- What the code produces for `dOneImgTwoEqs` before the loop's second
iteration raises `IndexError`: the (whole) prefix of images is replaced. -/
def dOneImgTwoEqsOut : Dom :=
  .elem "html" []
    (.commentNode srcTwoEqs
      (.elem "span" [("class_", "math")] (.textNode "$x$" .nil) .nil)) .nil

/-- Embedded MATLAB source whose single equation spans two comment lines:
the extracted equation string is `"$a\n%b$"`. -/
def srcMultiline : String := "##### SOURCE BEGIN #####\n% $a\n%b$\n##### SOURCE END #####"

/-- A document carrying the multi-line equation and one placeholder image
(counts match, 1 = 1). -/
def dMultilineEq : Dom :=
  .elem "html" []
    (.commentNode srcMultiline (.elem "img" [("src", "eq1.png")] .nil .nil)) .nil

/-- The round-trip scenario of the specification: two sentinel equations
`$x+y$` and `$a^2$` and exactly two class-less images, in document order. -/
def srcRoundTrip : String :=
  "##### SOURCE BEGIN #####\n% $x+y$\n% $a^2$\n##### SOURCE END #####"

/-- The round-trip document. -/
def dRoundTrip : Dom :=
  .elem "html" []
    (.commentNode srcRoundTrip
      (.elem "img" [("src", "eq1.png")] .nil
        (.elem "img" [("src", "eq2.png")] .nil .nil))) .nil

/-- What the code produces for `dRoundTrip`. -/
def dRoundTripOut : Dom :=
  .elem "html" []
    (.commentNode srcRoundTrip
      (.elem "span" [("class_", "math")] (.textNode "$x+y$" .nil)
        (.elem "span" [("class_", "math")] (.textNode "$a^2$" .nil) .nil))) .nil

/-- A document with no `title` element anywhere. -/
def dNoTitle : Dom :=
  .elem "html" []
    (.elem "head" [] .nil (.elem "body" [] (.textNode "x" .nil) .nil)) .nil

/-- A document whose `title` element is empty. -/
def dEmptyTitle : Dom :=
  .elem "html" []
    (.elem "head" [] (.elem "title" [] .nil .nil)
      (.elem "body" [] .nil .nil)) .nil

/-- A section whose output-marker block contains a code-line wrapper carrying
both the `inlineWrapper` and the `outputs` class. -/
def secOutputWithBoth : Dom :=
  .elem "div" [("class", "SectionBlock")]
    (.elem "div" [("class", "outputParagraph")]
      (.elem "div" [("class", "inlineWrapper outputs")] (.textNode "y" .nil) .nil)
      .nil) .nil

/-- The extracted right-pane fragment of `secOutputWithBoth`: the inner
wrapper still carries both classes. -/
def outFragBoth : Dom :=
  .elem "div" [("class", "outputParagraph")]
    (.elem "div" [("class", "inlineWrapper outputs")] (.textNode "y" .nil) .nil)
    .nil

/-! ## Claim theorems on concrete inputs -/

/-- C1: the claim says that whenever the equation count differs from the
placeholder-image count, no substitution at all happens.  The code only logs
the mismatch warning and falls through to the replacement loop (the `return`
is missing), so with one equation and two images the first image is replaced
anyway — the code contradicts its own warning text ("I won't be replacing the
equtions in the ouput"). -/
theorem count_mismatch_still_substitutes :
    convert_equations dTwoImgsOneEq = ⟨dTwoImgsOneEqOut, false, true, false⟩
      ∧ dTwoImgsOneEqOut ≠ dTwoImgsOneEq :=
  ⟨by decide, by decide⟩

/-- C3: with more sentinel equations than placeholder images (here 2 vs 1)
the replacement loop indexes the image list past its end: every image (the
whole prefix the loop reaches) is replaced and then `IndexError` is raised
(the `indexError` field of the result). -/
theorem excess_equations_index_error :
    (extractEquations srcTwoEqs).length = 2
      ∧ countEqImgs dOneImgTwoEqs = 1
      ∧ convert_equations dOneImgTwoEqs = ⟨dOneImgTwoEqsOut, false, true, true⟩ :=
  ⟨by decide, by decide, by decide⟩

/-- C2 counterexample: the claim says the sigil after a newline is removed.
The code substitutes a space for it (`re.sub('(?<=\n)\%', ' ', ...)`), so the
multi-line equation `"$a\n%b$"` renders as `"$a b$"`, not the `"$ab$"` the
claim's cleanup produces. -/
theorem sigil_cleanup_is_space_not_removal :
    extractEquations srcMultiline = ["$a\n%b$"]
      ∧ nodeAt (convert_equations dMultilineEq).doc [0, 1] =
          some (.elem "span" [("class_", "math")] (.textNode "$a b$" .nil) .nil)
      ∧ cleanupClaimed "$a\n%b$" = "$ab$"
      ∧ ("$a b$" : String) ≠ "$ab$" :=
  ⟨by decide, by decide, by decide, by decide⟩

/-- C8: the claim says a missing or empty title is tolerated and yields an
empty title string.  With no `title` element at all, `soup.title` is `None`
and `soup.title.string` raises `AttributeError`; with an empty `title`
element the value passed to the template is `None`, not the empty string. -/
theorem title_access_fails_without_title :
    extractTitle dNoTitle = Except.error "AttributeError"
      ∧ extractTitle dEmptyTitle = Except.ok none :=
  ⟨rfl, rfl⟩

/-- C9 counterexample: in the round-trip scenario the node that replaces the
first image is `<span class_="math">$x+y$</span>` — `new_tag`'s `class_`
keyword becomes a literal `class_` attribute and the regex match keeps the
`$` delimiters — not the `<span class="math">x+y</span>` the claim states. -/
theorem round_trip_spans_differ_from_claim :
    nodeAt (convert_equations dRoundTrip).doc [0, 1] =
        some (.elem "span" [("class_", "math")] (.textNode "$x+y$" .nil) .nil)
      ∧ (Dom.elem "span" [("class_", "math")] (.textNode "$x+y$" .nil) .nil)
          ≠ (Dom.elem "span" [("class", "math")] (.textNode "x+y" .nil) .nil) :=
  ⟨by decide, by decide⟩

/-- C9 amended: the round-trip output replaces the two images, in their
positions, by spans whose attribute is literally `class_="math"` and whose
texts keep the `$` delimiters: `$x+y$` and `$a^2$`. -/
theorem round_trip_actual_spans :
    convert_equations dRoundTrip = ⟨dRoundTripOut, false, false, false⟩
      ∧ nodeAt dRoundTripOut [0, 1] =
          some (.elem "span" [("class_", "math")] (.textNode "$x+y$" .nil) .nil)
      ∧ nodeAt dRoundTripOut [0, 2] =
          some (.elem "span" [("class_", "math")] (.textNode "$a^2$" .nil) .nil) :=
  ⟨by decide, by decide, by decide⟩

/-- C10 counterexample: a code-line wrapper carrying both classes that sits
inside an output-marker block is extracted to the right pane before the
class normalization runs, so it keeps the `outputs` class — the claim's
"every code-line wrapper element" is not normalized. -/
theorem both_class_inside_output_not_stripped :
    process_section secOutputWithBoth = (Dom.nil, [outFragBoth])
      ∧ countBy isBothIWOut outFragBoth = 1 :=
  ⟨by decide, by decide⟩

/-! ## C4: missing sentinel comment -/

/-- If no element of the list satisfies the sentinel test, the fold of
`findMlSource` returns its accumulator unchanged. -/
theorem foldl_no_sentinel (l : List String) :
    ∀ acc : Option String, (∀ c ∈ l, strStarts sentinel (pyStrip c) = false) →
      l.foldl (fun acc c => if strStarts sentinel (pyStrip c) then some (pyStrip c) else acc) acc
        = acc := by
  induction l with
  | nil => intro acc _; rfl
  | cons a t ih =>
    intro acc h
    have ha := h a (List.mem_cons_self a t)
    simp only [List.foldl_cons, ha, Bool.false_eq_true, if_false]
    exact ih acc (fun c hc => h c (List.mem_cons_of_mem a hc))

/-- C4: when no comment node's stripped text begins with the sentinel marker
`##### SOURCE BEGIN #####`, `convert_equations` prints the warning and
returns with the tree untouched: every placeholder image stays in place. -/
theorem missing_sentinel_leaves_doc_unchanged (d : Dom)
    (h : ∀ c ∈ commentsOf d, strStarts sentinel (pyStrip c) = false) :
    convert_equations d = ⟨d, true, false, false⟩ := by
  have hm : findMlSource d = none := foldl_no_sentinel (commentsOf d) none h
  simp only [convert_equations, hm]

/-- A document whose only comment is not the sentinel comment. -/
def dNoSentinel : Dom :=
  .elem "html" []
    (.commentNode "just a comment"
      (.elem "img" [("src", "eq1.png")] .nil .nil)) .nil

/-- Witness for C4 at a concrete document. -/
theorem missing_sentinel_leaves_doc_unchanged_witness :
    convert_equations dNoSentinel = ⟨dNoSentinel, true, false, false⟩ :=
  missing_sentinel_leaves_doc_unchanged dNoSentinel (by decide)

/-! ## C7: idempotence of the empty-line trim -/

/-- The head of the first loop's result is never an empty line. -/
theorem dropLeadingEmpty_head_false :
    ∀ (l : List String) (h : String) (t : List String),
      dropLeadingEmpty l = h :: t → (h == "") = false := by
  intro l
  induction l with
  | nil => intro h t hx; simp [dropLeadingEmpty] at hx
  | cons a rest ih =>
    intro h t hx
    by_cases ha : (a == "") = true
    · rw [show dropLeadingEmpty (a :: rest) = dropLeadingEmpty rest by
        simp [dropLeadingEmpty, ha]] at hx
      exact ih h t hx
    · have hfa : (a == "") = false := Bool.eq_false_iff.mpr ha
      rw [show dropLeadingEmpty (a :: rest) = a :: rest by
        simp [dropLeadingEmpty, hfa]] at hx
      cases hx
      exact hfa

/-- The first loop removes only leading lines: when its result is non-empty
the last line is unchanged. -/
theorem dropLeadingEmpty_getLast :
    ∀ l : List String, dropLeadingEmpty l ≠ [] →
      (dropLeadingEmpty l).getLast? = l.getLast? := by
  intro l
  induction l with
  | nil => intro h; rfl
  | cons a rest ih =>
    intro hne
    by_cases ha : (a == "") = true
    · have hstep : dropLeadingEmpty (a :: rest) = dropLeadingEmpty rest := by
        simp [dropLeadingEmpty, ha]
      rw [hstep] at hne ⊢
      have hrest : rest ≠ [] := by
        intro h0
        rw [h0] at hne
        exact hne rfl
      rw [ih hne]
      match rest, hrest with
      | b :: t, _ => rw [List.getLast?_cons_cons]
    · have hfa : (a == "") = false := Bool.eq_false_iff.mpr ha
      rw [show dropLeadingEmpty (a :: rest) = a :: rest by
        simp [dropLeadingEmpty, hfa]]

/-- The first loop is idempotent. -/
theorem dropLeadingEmpty_idem (l : List String) :
    dropLeadingEmpty (dropLeadingEmpty l) = dropLeadingEmpty l := by
  induction l with
  | nil => rfl
  | cons a rest ih =>
    by_cases ha : (a == "") = true
    · simp [dropLeadingEmpty, ha, ih]
    · have hfa : (a == "") = false := Bool.eq_false_iff.mpr ha
      simp [dropLeadingEmpty, hfa]

/-- A list whose head (if any) is a non-empty line is untouched by the first
loop. -/
theorem dropLeadingEmpty_of_head_false (l : List String)
    (h : ∀ x, l.head? = some x → (x == "") = false) : dropLeadingEmpty l = l := by
  cases l with
  | nil => rfl
  | cons a rest =>
    have := h a rfl
    simp [dropLeadingEmpty, this]

/-- The head of a trimmed line sequence is never an empty line. -/
theorem trim_head_prop (l : List String) :
    ∀ x, (trim_empty_code_lines l).head? = some x → (x == "") = false := by
  intro x hx
  have hx1 : (dropLeadingEmpty (dropLeadingEmpty l).reverse).getLast? = some x := by
    have hdef : trim_empty_code_lines l
        = (dropLeadingEmpty (dropLeadingEmpty l).reverse).reverse := rfl
    rw [hdef, List.head?_reverse] at hx
    exact hx
  have hrne : dropLeadingEmpty (dropLeadingEmpty l).reverse ≠ [] := by
    intro h0
    rw [h0] at hx1
    simp at hx1
  rw [dropLeadingEmpty_getLast _ hrne, List.getLast?_reverse] at hx1
  cases hdle : dropLeadingEmpty l with
  | nil => rw [hdle] at hx1; simp at hx1
  | cons h t =>
    rw [hdle] at hx1
    have hhx : h = x := by simpa using hx1
    exact hhx ▸ dropLeadingEmpty_head_false l h t hdle

/-- C7: `trim_empty_code_lines` is idempotent — applying the trim to an
already-trimmed sequence of code lines leaves it unchanged. -/
theorem trim_empty_code_lines_idempotent (l : List String) :
    trim_empty_code_lines (trim_empty_code_lines l) = trim_empty_code_lines l := by
  have hA : dropLeadingEmpty (trim_empty_code_lines l) = trim_empty_code_lines l :=
    dropLeadingEmpty_of_head_false _ (trim_head_prop l)
  show (dropLeadingEmpty (dropLeadingEmpty (trim_empty_code_lines l)).reverse).reverse
      = trim_empty_code_lines l
  rw [hA]
  have hB : (trim_empty_code_lines l).reverse
      = dropLeadingEmpty (dropLeadingEmpty l).reverse := by
    show (dropLeadingEmpty (dropLeadingEmpty l).reverse).reverse.reverse = _
    rw [List.reverse_reverse]
  rw [hB, dropLeadingEmpty_idem]
  rfl

/-! ## C5 / C10: splitter lemmas -/

/-- One output fragment is collected per output-marker block. -/
theorem collectOP_length : ∀ d : Dom, (collectOP d).length = countBy isOP d := by
  intro d
  induction d with
  | nil => rfl
  | elem nm attrs cs sib ihc ihs =>
    by_cases h : isOP nm attrs = true
    · simp [collectOP, countBy, h, ihc, ihs]
      omega
    · have hf : isOP nm attrs = false := Bool.eq_false_iff.mpr h
      simp [collectOP, countBy, hf, ihc, ihs]
  | textNode s sib ihs => simp [collectOP, countBy, ihs]
  | commentNode s sib ihs => simp [collectOP, countBy, ihs]

/-- After extraction no output-marker block remains. -/
theorem stripOP_countOP : ∀ d : Dom, countBy isOP (stripOP d) = 0 := by
  intro d
  induction d with
  | nil => rfl
  | elem nm attrs cs sib ihc ihs =>
    by_cases h : isOP nm attrs = true
    · simp [stripOP, h, ihs]
    · have hf : isOP nm attrs = false := Bool.eq_false_iff.mpr h
      simp [stripOP, countBy, hf, ihc, ihs]
  | textNode s sib ihs => simp [stripOP, countBy, ihs]
  | commentNode s sib ihs => simp [stripOP, countBy, ihs]

/-- Unfolding step for `setClassIW` on a cons cell. -/
theorem setClassIW_cons (k v : String) (rest : List (String × String)) :
    setClassIW ((k, v) :: rest)
      = (if k == "class" then (k, "inlineWrapper") else (k, v)) :: setClassIW rest := rfl

/-- Unfolding step for `lookupAttr` on a cons cell. -/
theorem lookupAttr_cons (k v key : String) (rest : List (String × String)) :
    lookupAttr ((k, v) :: rest) key
      = if k == key then some v else lookupAttr rest key := rfl

/-- The class attribute after `setClassIW` is absent or exactly
`inlineWrapper`. -/
theorem lookup_setClassIW (attrs : List (String × String)) :
    lookupAttr (setClassIW attrs) "class" = none
      ∨ lookupAttr (setClassIW attrs) "class" = some "inlineWrapper" := by
  induction attrs with
  | nil => exact Or.inl rfl
  | cons kv rest ih =>
    obtain ⟨k, v⟩ := kv
    by_cases hk : k = "class"
    · subst hk
      right
      have h1 : ("class" == "class") = true := rfl
      simp only [setClassIW_cons, h1, if_true, lookupAttr_cons]
    · have hkb : (k == "class") = false := beq_eq_false_iff_ne.mpr hk
      simp only [setClassIW_cons, lookupAttr_cons, hkb, Bool.false_eq_true, if_false]
      exact ih

/-- A normalized element does not carry the `outputParagraph` class. -/
theorem hasCls_setClassIW_outPara (attrs : List (String × String)) :
    hasCls (setClassIW attrs) "outputParagraph" = false := by
  rcases lookup_setClassIW attrs with h | h
  · simp only [hasCls, classListOf, h]
    decide
  · simp only [hasCls, classListOf, h]
    decide

/-- A normalized element does not carry the `outputs` class. -/
theorem hasCls_setClassIW_outputs (attrs : List (String × String)) :
    hasCls (setClassIW attrs) "outputs" = false := by
  rcases lookup_setClassIW attrs with h | h
  · simp only [hasCls, classListOf, h]
    decide
  · simp only [hasCls, classListOf, h]
    decide

/-- Class normalization creates no output-marker blocks. -/
theorem normClass_isOP_le : ∀ d : Dom, countBy isOP (normClass d) ≤ countBy isOP d := by
  intro d
  induction d with
  | nil => exact Nat.le_refl 0
  | elem nm attrs cs sib ihc ihs =>
    by_cases h : isBothIWOut nm attrs = true
    · have hop : isOP nm (setClassIW attrs) = false := by
        simp [isOP, hasCls_setClassIW_outPara]
      simp only [normClass, countBy, h, if_true, hop]
      simp only [if_false, Bool.false_eq_true]
      omega
    · have hf : isBothIWOut nm attrs = false := Bool.eq_false_iff.mpr h
      simp only [normClass, countBy, hf, Bool.false_eq_true, if_false]
      omega
  | textNode s sib ihs => simpa [normClass, countBy] using ihs
  | commentNode s sib ihs => simpa [normClass, countBy] using ihs

/-- After class normalization no element carries both the `inlineWrapper` and
the `outputs` class. -/
theorem normClass_both_zero : ∀ d : Dom, countBy isBothIWOut (normClass d) = 0 := by
  intro d
  induction d with
  | nil => rfl
  | elem nm attrs cs sib ihc ihs =>
    by_cases h : isBothIWOut nm attrs = true
    · have hb : isBothIWOut nm (setClassIW attrs) = false := by
        simp [isBothIWOut, hasCls_setClassIW_outputs]
      simp [normClass, countBy, h, hb, ihc, ihs]
    · have hf : isBothIWOut nm attrs = false := Bool.eq_false_iff.mpr h
      simp [normClass, countBy, hf, ihc, ihs]
  | textNode s sib ihs => simpa [normClass, countBy] using ihs
  | commentNode s sib ihs => simpa [normClass, countBy] using ihs

/-- The trim's extraction only removes nodes: any element count is
monotone. -/
theorem removeIW_mono (p : String → List (String × String) → Bool) :
    ∀ (d : Dom) (a b N r : Nat), countBy p ((removeIW a b N r d).1) ≤ countBy p d := by
  intro d
  induction d with
  | nil => intro a b N r; exact Nat.le_refl 0
  | elem nm attrs cs sib ihc ihs =>
    intro a b N r
    by_cases hiw : isIW nm attrs = true
    · by_cases hdrop : (decide (r < a) || decide (N - b ≤ r)) = true
      · have h1 := ihs a b N (r + (1 + countIW cs))
        simp only [removeIW, hiw, if_true, hdrop, countBy]
        omega
      · have hf : (decide (r < a) || decide (N - b ≤ r)) = false :=
          Bool.eq_false_iff.mpr hdrop
        have h1 := ihc a b N (r + 1)
        have h2 := ihs a b N (r + (1 + countIW cs))
        simp only [removeIW, hiw, if_true, hf, Bool.false_eq_true, if_false, countBy]
        omega
    · have hf : isIW nm attrs = false := Bool.eq_false_iff.mpr hiw
      have h1 := ihc a b N r
      have h2 := ihs a b N ((removeIW a b N r cs).2)
      simp only [removeIW, hf, Bool.false_eq_true, if_false, countBy]
      omega
  | textNode s sib ihs =>
    intro a b N r
    simpa [removeIW, countBy] using ihs a b N r
  | commentNode s sib ihs =>
    intro a b N r
    simpa [removeIW, countBy] using ihs a b N r

/-- Trimming one container only removes nodes. -/
theorem trimContainer_mono (p : String → List (String × String) → Bool) (d : Dom) :
    countBy p (trimContainer d) ≤ countBy p d :=
  removeIW_mono p d _ _ _ 0

/-- The whole trimming pass only removes nodes. -/
theorem trimTree_mono (p : String → List (String × String) → Bool) :
    ∀ d : Dom, countBy p (trimTree d) ≤ countBy p d := by
  intro d
  induction d with
  | nil => exact Nat.le_refl 0
  | elem nm attrs cs sib ihc ihs =>
    by_cases h : hasCls attrs "LineNodeBlock" = true
    · have h1 := trimContainer_mono p (trimTree cs)
      simp only [trimTree, h, if_true, countBy]
      omega
    · have hf : hasCls attrs "LineNodeBlock" = false := Bool.eq_false_iff.mpr h
      simp only [trimTree, hf, Bool.false_eq_true, if_false, countBy]
      omega
  | textNode s sib ihs => simpa [trimTree, countBy] using ihs
  | commentNode s sib ihs => simpa [trimTree, countBy] using ihs

/-- C5: for every section, the splitter returns exactly one right-pane
fragment per output-marker block originally present, and the left pane
contains no output-marker block after splitting. -/
theorem split_outputs_count_and_absence (s : Dom) :
    ((process_section s).2).length = countOPChildren s
      ∧ countBy isOP (process_section s).1 = 0 := by
  cases s with
  | nil => exact ⟨rfl, rfl⟩
  | elem nm attrs cs sib =>
    constructor
    · exact collectOP_length cs
    · show countBy isOP (trimTree (normClass (stripOP cs))) = 0
      have h1 := trimTree_mono isOP (normClass (stripOP cs))
      have h2 := normClass_isOP_le (stripOP cs)
      have h3 := stripOP_countOP cs
      omega
  | textNode s sib => exact ⟨rfl, rfl⟩
  | commentNode s sib => exact ⟨rfl, rfl⟩

/-- The elementwise effect of the class normalization. -/
def normElemInfo (x : String × List (String × String)) : String × List (String × String) :=
  if isBothIWOut x.1 x.2 then (x.1, setClassIW x.2) else x

/-- C10 amended: the class normalization maps every element of the section
(after output extraction) elementwise — an element carrying both the
`inlineWrapper` and the `outputs` class gets its class attribute overwritten
with exactly `inlineWrapper`, every other element keeps its attributes — and
consequently the left pane of the splitter carries no element with both
classes. -/
theorem class_normalization_on_left_pane :
    (∀ d : Dom, elemsInfo (normClass d) = (elemsInfo d).map normElemInfo)
      ∧ (∀ s : Dom, countBy isBothIWOut (process_section s).1 = 0) := by
  constructor
  · intro d
    induction d with
    | nil => rfl
    | elem nm attrs cs sib ihc ihs =>
      by_cases h : isBothIWOut nm attrs = true
      · simp [normClass, elemsInfo, h, normElemInfo, ihc, ihs]
      · have hf : isBothIWOut nm attrs = false := Bool.eq_false_iff.mpr h
        simp [normClass, elemsInfo, hf, normElemInfo, ihc, ihs]
    | textNode s sib ihs => simpa [normClass, elemsInfo] using ihs
    | commentNode s sib ihs => simpa [normClass, elemsInfo] using ihs
  · intro s
    cases s with
    | nil => rfl
    | elem nm attrs cs sib =>
      show countBy isBothIWOut (trimTree (normClass (stripOP cs))) = 0
      have h1 := trimTree_mono isBothIWOut (normClass (stripOP cs))
      have h2 := normClass_both_zero (stripOP cs)
      omega
    | textNode s sib => rfl
    | commentNode s sib => rfl

/-! ## C6: anchor generator lemmas -/

/-- A heading's tag name is not `a`. -/
theorem heading_not_a (nm : String) (h : isHeadingName nm = true) : (nm == "a") = false := by
  simp only [isHeadingName, Bool.or_eq_true, beq_iff_eq] at h
  rcases h with h | h <;> subst h <;> rfl

/-- Whether a node is a heading element. -/
def rootIsHeading : Dom → Bool
  | .elem nm _ _ _ => isHeadingName nm
  | _ => false

/-- Unfolding of the wrapper pass at a heading element. -/
theorem wrapHeads_elem_heading (c : Nat) (nm : String) (attrs : List (String × String))
    (cs sib : Dom) (h : isHeadingName nm = true) :
    wrapHeads c (.elem nm attrs cs sib)
      = (.elem "a" (anchorAttrs c)
          (.elem nm attrs (wrapHeads (c + 1) cs).1 .nil)
          (wrapHeads (wrapHeads (c + 1) cs).2 sib).1,
        (wrapHeads (wrapHeads (c + 1) cs).2 sib).2) := by
  simp [wrapHeads, h]

/-- Unfolding of the wrapper pass at a non-heading element. -/
theorem wrapHeads_elem_plain (c : Nat) (nm : String) (attrs : List (String × String))
    (cs sib : Dom) (h : isHeadingName nm = false) :
    wrapHeads c (.elem nm attrs cs sib)
      = (.elem nm attrs (wrapHeads c cs).1 (wrapHeads (wrapHeads c cs).2 sib).1,
        (wrapHeads (wrapHeads c cs).2 sib).2) := by
  simp [wrapHeads, h]

/-- Unfolding of the wrapper pass at a text node. -/
theorem wrapHeads_textNode (c : Nat) (s : String) (sib : Dom) :
    wrapHeads c (.textNode s sib)
      = (.textNode s (wrapHeads c sib).1, (wrapHeads c sib).2) := by
  simp [wrapHeads]

/-- Unfolding of the wrapper pass at a comment node. -/
theorem wrapHeads_commentNode (c : Nat) (s : String) (sib : Dom) :
    wrapHeads c (.commentNode s sib)
      = (.commentNode s (wrapHeads c sib).1, (wrapHeads c sib).2) := by
  simp [wrapHeads]

/-- No node produced by the wrapper pass has a heading at its root: headings
are wrapped in `a` elements, other elements keep their names. -/
theorem wrapHeads_root (c : Nat) (d : Dom) : rootIsHeading ((wrapHeads c d).1) = false := by
  cases d with
  | nil => rfl
  | elem nm attrs cs sib =>
    by_cases h : isHeadingName nm = true
    · rw [wrapHeads_elem_heading c nm attrs cs sib h]
      rfl
    · have hf : isHeadingName nm = false := Bool.eq_false_iff.mpr h
      rw [wrapHeads_elem_plain c nm attrs cs sib hf]
      exact hf
  | textNode s sib => rw [wrapHeads_textNode]; rfl
  | commentNode s sib => rw [wrapHeads_commentNode]; rfl

/-- A non-`a` element never directly wraps a heading. -/
theorem isDirWrap_not_a (nm : String) (attrs : List (String × String)) (d : Dom)
    (h : (nm == "a") = false) : isDirWrap nm attrs d = false := by
  cases d with
  | nil => rfl
  | elem nm2 a2 c2 s2 =>
    cases s2 with
    | nil => simp [isDirWrap, isLocalAnchor, h]
    | elem _ _ _ _ => rfl
    | textNode _ _ => rfl
    | commentNode _ _ => rfl
  | textNode _ _ => rfl
  | commentNode _ _ => rfl

/-- An element whose children chain does not start with a heading does not
directly wrap a heading. -/
theorem isDirWrap_nonheading_child (nm : String) (attrs : List (String × String)) (d : Dom)
    (h : rootIsHeading d = false) : isDirWrap nm attrs d = false := by
  cases d with
  | nil => rfl
  | elem nm2 a2 c2 s2 =>
    cases s2 with
    | nil =>
      have h2 : isHeadingName nm2 = false := h
      simp [isDirWrap, h2]
    | elem _ _ _ _ => rfl
    | textNode _ _ => rfl
    | commentNode _ _ => rfl
  | textNode _ _ => rfl
  | commentNode _ _ => rfl

/-- Splitting `anchorList` over a sum of counts. -/
theorem anchorList_add (x y c : Nat) :
    anchorList c (x + y) = anchorList c x ++ anchorList (c + x) y := by
  induction x generalizing c with
  | zero => simp [anchorList]
  | succ n ih =>
    rw [show n + 1 + y = (n + y) + 1 by omega]
    show ("anchor" ++ toString c, "#") :: anchorList (c + 1) (n + y) = _
    rw [ih (c + 1), show c + 1 + n = c + (n + 1) by omega]
    rfl

/-- Unfolding step for `dirWraps` on an element. -/
theorem dirWraps_elem (nm : String) (attrs : List (String × String)) (cs sib : Dom) :
    dirWraps (.elem nm attrs cs sib)
      = (if isDirWrap nm attrs cs then
          [((lookupAttr attrs "id").getD "", (lookupAttr attrs "href").getD "")]
         else []) ++ dirWraps cs ++ dirWraps sib := rfl

/-- Unfolding step for `headCount` on an element. -/
theorem headCount_elem (nm : String) (attrs : List (String × String)) (cs sib : Dom) :
    headCount (.elem nm attrs cs sib)
      = (if isHeadingName nm then 1 else 0) + headCount cs + headCount sib := rfl

/-- Unfolding step for `anchorCount` on an element. -/
theorem anchorCount_elem (nm : String) (attrs : List (String × String)) (cs sib : Dom) :
    anchorCount (.elem nm attrs cs sib)
      = (if isLocalAnchor nm attrs then 1 else 0) + anchorCount cs + anchorCount sib := rfl

/-- `dirWraps` step when the element directly wraps a heading. -/
theorem dirWraps_elem_pos (nm : String) (attrs : List (String × String)) (cs sib : Dom)
    (h : isDirWrap nm attrs cs = true) :
    dirWraps (.elem nm attrs cs sib)
      = ((lookupAttr attrs "id").getD "", (lookupAttr attrs "href").getD "")
          :: (dirWraps cs ++ dirWraps sib) := by
  simp [dirWraps_elem, h]

/-- `dirWraps` step when the element does not directly wrap a heading. -/
theorem dirWraps_elem_neg (nm : String) (attrs : List (String × String)) (cs sib : Dom)
    (h : isDirWrap nm attrs cs = false) :
    dirWraps (.elem nm attrs cs sib) = dirWraps cs ++ dirWraps sib := by
  simp [dirWraps_elem, h]

/-- `headCount` step at a heading element. -/
theorem headCount_elem_pos (nm : String) (attrs : List (String × String)) (cs sib : Dom)
    (h : isHeadingName nm = true) :
    headCount (.elem nm attrs cs sib) = 1 + headCount cs + headCount sib := by
  simp [headCount_elem, h]

/-- `headCount` step at a non-heading element. -/
theorem headCount_elem_neg (nm : String) (attrs : List (String × String)) (cs sib : Dom)
    (h : isHeadingName nm = false) :
    headCount (.elem nm attrs cs sib) = headCount cs + headCount sib := by
  simp [headCount_elem, h]

/-- `anchorCount` step at a local-anchor link. -/
theorem anchorCount_elem_pos (nm : String) (attrs : List (String × String)) (cs sib : Dom)
    (h : isLocalAnchor nm attrs = true) :
    anchorCount (.elem nm attrs cs sib) = 1 + anchorCount cs + anchorCount sib := by
  simp [anchorCount_elem, h]

/-- `anchorCount` step at any other element. -/
theorem anchorCount_elem_neg (nm : String) (attrs : List (String × String)) (cs sib : Dom)
    (h : isLocalAnchor nm attrs = false) :
    anchorCount (.elem nm attrs cs sib) = anchorCount cs + anchorCount sib := by
  simp [anchorCount_elem, h]

/-- The main invariant of the wrapper pass: starting the counter at `c`, the
direct wrappers of the result are exactly `anchor{c}, anchor{c+1}, …` in
document order, one per heading, each with href `#`; the final counter is `c`
plus the heading count; headings are preserved; and each heading adds exactly
one local-anchor link. -/
theorem wrapHeads_spec : ∀ (d : Dom) (c : Nat),
    dirWraps ((wrapHeads c d).1) = anchorList c (headCount d)
      ∧ (wrapHeads c d).2 = c + headCount d
      ∧ headCount ((wrapHeads c d).1) = headCount d
      ∧ anchorCount ((wrapHeads c d).1) = anchorCount d + headCount d := by
  intro d
  induction d with
  | nil => intro c; exact ⟨rfl, rfl, rfl, rfl⟩
  | elem nm attrs cs sib ihc ihs =>
    intro c
    by_cases h : isHeadingName nm = true
    · obtain ⟨ihc1, ihc2, ihc3, ihc4⟩ := ihc (c + 1)
      obtain ⟨ihs1, ihs2, ihs3, ihs4⟩ := ihs ((wrapHeads (c + 1) cs).2)
      rw [wrapHeads_elem_heading c nm attrs cs sib h]
      have hne : (nm == "a") = false := heading_not_a nm h
      have hdw1 : isDirWrap "a" (anchorAttrs c)
          (.elem nm attrs ((wrapHeads (c + 1) cs).1) .nil) = true := by
        show (isLocalAnchor "a" (anchorAttrs c) && isHeadingName nm) = true
        rw [h, show isLocalAnchor "a" (anchorAttrs c) = true from rfl]
        rfl
      have hdw2 : isDirWrap nm attrs ((wrapHeads (c + 1) cs).1) = false :=
        isDirWrap_not_a nm attrs _ hne
      have hla : isLocalAnchor nm attrs = false := by
        simp [isLocalAnchor, hne]
      refine ⟨?_, ?_, ?_, ?_⟩
      · rw [dirWraps_elem_pos _ _ _ _ hdw1, dirWraps_elem_neg _ _ _ _ hdw2]
        rw [show dirWraps Dom.nil = [] from rfl, List.append_nil]
        rw [ihc1, ihs1]
        rw [ihc2]
        rw [show (lookupAttr (anchorAttrs c) "id").getD "" = "anchor" ++ toString c from rfl]
        rw [show (lookupAttr (anchorAttrs c) "href").getD "" = "#" from rfl]
        rw [headCount_elem_pos _ _ _ _ h]
        rw [show 1 + headCount cs + headCount sib = (headCount cs + headCount sib) + 1 by omega]
        rw [show anchorList c ((headCount cs + headCount sib) + 1)
            = ("anchor" ++ toString c, "#") :: anchorList (c + 1) (headCount cs + headCount sib)
          from rfl]
        rw [anchorList_add (headCount cs) (headCount sib) (c + 1)]
      · show (wrapHeads ((wrapHeads (c + 1) cs).2) sib).2 = _
        rw [ihs2, ihc2, headCount_elem_pos _ _ _ _ h]
        omega
      · rw [headCount_elem_neg _ _ _ _ (show isHeadingName "a" = false from rfl)]
        rw [headCount_elem_pos _ _ _ _ h, show headCount Dom.nil = 0 from rfl]
        rw [ihc3, ihs3, headCount_elem_pos _ _ _ _ h]
        omega
      · rw [anchorCount_elem_pos _ _ _ _ (show isLocalAnchor "a" (anchorAttrs c) = true from rfl)]
        rw [anchorCount_elem_neg _ _ _ _ hla, show anchorCount Dom.nil = 0 from rfl]
        rw [ihc4, ihs4, anchorCount_elem_neg _ _ _ _ hla, headCount_elem_pos _ _ _ _ h]
        omega
    · have hf : isHeadingName nm = false := Bool.eq_false_iff.mpr h
      obtain ⟨ihc1, ihc2, ihc3, ihc4⟩ := ihc c
      obtain ⟨ihs1, ihs2, ihs3, ihs4⟩ := ihs ((wrapHeads c cs).2)
      rw [wrapHeads_elem_plain c nm attrs cs sib hf]
      have hdw : isDirWrap nm attrs ((wrapHeads c cs).1) = false :=
        isDirWrap_nonheading_child nm attrs _ (wrapHeads_root c cs)
      refine ⟨?_, ?_, ?_, ?_⟩
      · rw [dirWraps_elem_neg _ _ _ _ hdw, ihc1, ihs1, ihc2]
        rw [headCount_elem_neg _ _ _ _ hf]
        rw [anchorList_add (headCount cs) (headCount sib) c]
      · show (wrapHeads ((wrapHeads c cs).2) sib).2 = _
        rw [ihs2, ihc2, headCount_elem_neg _ _ _ _ hf]
        omega
      · rw [headCount_elem_neg _ _ _ _ hf, ihc3, ihs3, headCount_elem_neg _ _ _ _ hf]
      · by_cases hla : isLocalAnchor nm attrs = true
        · rw [anchorCount_elem_pos _ _ _ _ hla, ihc4, ihs4,
            anchorCount_elem_pos _ _ _ _ hla, headCount_elem_neg _ _ _ _ hf]
          omega
        · have hlaf : isLocalAnchor nm attrs = false := Bool.eq_false_iff.mpr hla
          rw [anchorCount_elem_neg _ _ _ _ hlaf, ihc4, ihs4,
            anchorCount_elem_neg _ _ _ _ hlaf, headCount_elem_neg _ _ _ _ hf]
          omega
  | textNode s sib ihs =>
    intro c
    obtain ⟨i1, i2, i3, i4⟩ := ihs c
    rw [wrapHeads_textNode]
    exact ⟨i1, i2, i3, i4⟩
  | commentNode s sib ihs =>
    intro c
    obtain ⟨i1, i2, i3, i4⟩ := ihs c
    rw [wrapHeads_commentNode]
    exact ⟨i1, i2, i3, i4⟩

/-- C6: the anchor generator wraps every `h1`/`h2` heading, in document
order, in a link whose id is `anchor1`, `anchor2`, … (strictly increasing
from 1, one per heading) and whose href is `#`; headings survive the pass,
each heading adds exactly one local-anchor link, and rerunning the generator
on an already-wrapped document wraps every heading again (nested wrapping,
no deduplication): the fresh inner wrappers get ids `anchor1`, `anchor2`, …
once more and the local-anchor count grows by the heading count again. -/
theorem anchor_ids_in_document_order (d : Dom) :
    dirWraps (make_titles_into_anchors d) = anchorList 1 (headCount d)
      ∧ headCount (make_titles_into_anchors d) = headCount d
      ∧ anchorCount (make_titles_into_anchors d) = anchorCount d + headCount d
      ∧ dirWraps (make_titles_into_anchors (make_titles_into_anchors d))
          = anchorList 1 (headCount d)
      ∧ anchorCount (make_titles_into_anchors (make_titles_into_anchors d))
          = anchorCount d + 2 * headCount d := by
  obtain ⟨h1, h2, h3, h4⟩ := wrapHeads_spec d 1
  obtain ⟨g1, g2, g3, g4⟩ := wrapHeads_spec ((wrapHeads 1 d).1) 1
  refine ⟨h1, h3, h4, ?_, ?_⟩
  · show dirWraps ((wrapHeads 1 ((wrapHeads 1 d).1)).1) = _
    rw [g1, h3]
  · show anchorCount ((wrapHeads 1 ((wrapHeads 1 d).1)).1) = _
    rw [g4, h4, h3]
    omega

/-! ## C2: substitution when the counts match -/

/-- Unfolding step for `countEqImgs` on an element. -/
theorem countEqImgs_elem (nm : String) (attrs : List (String × String)) (cs sib : Dom) :
    countEqImgs (.elem nm attrs cs sib)
      = (if isEqImg nm attrs then 1 else 0) + countEqImgs cs + countEqImgs sib := rfl

/-- Components of the void-`img` invariant at an element. -/
theorem imgsVoid_parts (nm : String) (attrs : List (String × String)) (cs sib : Dom)
    (hv : imgsVoid (.elem nm attrs cs sib) = true) :
    imgsVoid cs = true ∧ imgsVoid sib = true ∧ (isEqImg nm attrs = true → cs = Dom.nil) := by
  have hv2 := hv
  simp only [imgsVoid, Bool.and_eq_true] at hv2
  obtain ⟨⟨hA, hB⟩, hC⟩ := hv2
  refine ⟨hB, hC, fun he => ?_⟩
  have himg : (nm == "img") = true := by
    have he2 := he
    rw [show isEqImg nm attrs = ((nm == "img") && !(hasAttrKey attrs "class")) from rfl,
      Bool.and_eq_true] at he2
    exact he2.1
  rw [himg] at hA
  simp only [Bool.not_true, Bool.false_or] at hA
  cases cs with
  | nil => rfl
  | elem _ _ _ _ => simp at hA
  | textNode _ _ => simp at hA
  | commentNode _ _ => simp at hA

/-- Unfolding of the replacement loop at a placeholder image that is
replaced. -/
theorem replaceImgs_img_replace (eqs : List String) (k : Nat) (nm : String)
    (attrs : List (String × String)) (cs sib : Dom)
    (himg : isEqImg nm attrs = true) (hk : k < eqs.length) :
    replaceImgs eqs k (.elem nm attrs cs sib)
      = (.elem "span" [("class_", "math")] (.textNode (cleanupCode (eqs.getD k "")) .nil)
          (replaceImgs eqs (k + 1) sib).1,
        (replaceImgs eqs (k + 1) sib).2) := by
  simp [replaceImgs, himg, hk]

/-- Unfolding of the replacement loop at a placeholder image that is left in
place (equation list exhausted). -/
theorem replaceImgs_img_keep (eqs : List String) (k : Nat) (nm : String)
    (attrs : List (String × String)) (cs sib : Dom)
    (himg : isEqImg nm attrs = true) (hk : ¬ k < eqs.length) :
    replaceImgs eqs k (.elem nm attrs cs sib)
      = (.elem nm attrs cs (replaceImgs eqs (k + 1) sib).1,
        (replaceImgs eqs (k + 1) sib).2) := by
  simp [replaceImgs, himg, hk]

/-- Unfolding of the replacement loop at a non-placeholder element. -/
theorem replaceImgs_elem_plain (eqs : List String) (k : Nat) (nm : String)
    (attrs : List (String × String)) (cs sib : Dom)
    (himg : isEqImg nm attrs = false) :
    replaceImgs eqs k (.elem nm attrs cs sib)
      = (.elem nm attrs (replaceImgs eqs k cs).1
          (replaceImgs eqs (replaceImgs eqs k cs).2 sib).1,
        (replaceImgs eqs (replaceImgs eqs k cs).2 sib).2) := by
  simp [replaceImgs, himg]

/-- Unfolding of the replacement loop at a text node. -/
theorem replaceImgs_textNode (eqs : List String) (k : Nat) (s : String) (sib : Dom) :
    replaceImgs eqs k (.textNode s sib)
      = (.textNode s (replaceImgs eqs k sib).1, (replaceImgs eqs k sib).2) := by
  simp [replaceImgs]

/-- Unfolding of the replacement loop at a comment node. -/
theorem replaceImgs_commentNode (eqs : List String) (k : Nat) (s : String) (sib : Dom) :
    replaceImgs eqs k (.commentNode s sib)
      = (.commentNode s (replaceImgs eqs k sib).1, (replaceImgs eqs k sib).2) := by
  simp [replaceImgs]

/-- The loop's counter advances by exactly the number of placeholder images
traversed. -/
theorem replaceImgs_counter (eqs : List String) : ∀ (d : Dom) (k : Nat),
    imgsVoid d = true → (replaceImgs eqs k d).2 = k + countEqImgs d := by
  intro d
  induction d with
  | nil => intro k _; rfl
  | elem nm attrs cs sib ihc ihs =>
    intro k hv
    obtain ⟨hv1, hv2, hv3⟩ := imgsVoid_parts _ _ _ _ hv
    by_cases himg : isEqImg nm attrs = true
    · have hcs : cs = Dom.nil := hv3 himg
      subst hcs
      have hcount : countEqImgs (.elem nm attrs Dom.nil sib) = 1 + countEqImgs sib := by
        rw [countEqImgs_elem, himg, show countEqImgs Dom.nil = 0 from rfl]
        simp
      by_cases hk : k < eqs.length
      · rw [replaceImgs_img_replace eqs k nm attrs Dom.nil sib himg hk]
        show (replaceImgs eqs (k + 1) sib).2 = _
        rw [ihs (k + 1) hv2, hcount]
        omega
      · rw [replaceImgs_img_keep eqs k nm attrs Dom.nil sib himg hk]
        show (replaceImgs eqs (k + 1) sib).2 = _
        rw [ihs (k + 1) hv2, hcount]
        omega
    · have hf : isEqImg nm attrs = false := Bool.eq_false_iff.mpr himg
      rw [replaceImgs_elem_plain eqs k nm attrs cs sib hf]
      show (replaceImgs eqs ((replaceImgs eqs k cs).2) sib).2 = _
      rw [ihs _ hv2, ihc k hv1, countEqImgs_elem, hf]
      simp
      omega
  | textNode s sib ihs =>
    intro k hv
    rw [replaceImgs_textNode]
    show (replaceImgs eqs k sib).2 = _
    rw [ihs k hv]
    rfl
  | commentNode s sib ihs =>
    intro k hv
    rw [replaceImgs_commentNode]
    show (replaceImgs eqs k sib).2 = _
    rw [ihs k hv]
    rfl

/-- One path is enumerated per placeholder image. -/
theorem eqImgPaths_length : ∀ d : Dom, (eqImgPaths d).length = countEqImgs d := by
  intro d
  induction d with
  | nil => rfl
  | elem nm attrs cs sib ihc ihs =>
    by_cases himg : isEqImg nm attrs = true
    · simp [eqImgPaths, himg, countEqImgs_elem, ihc, ihs]
      omega
    · have hf : isEqImg nm attrs = false := Bool.eq_false_iff.mpr himg
      simp [eqImgPaths, hf, countEqImgs_elem, ihc, ihs]
  | textNode s sib ihs =>
    show ((eqImgPaths sib).map bumpPath).length = countEqImgs sib
    simp [ihs]
  | commentNode s sib ihs =>
    show ((eqImgPaths sib).map bumpPath).length = countEqImgs sib
    simp [ihs]

/-- Every enumerated path is non-empty. -/
theorem eqImgPaths_ne_nil : ∀ (d : Dom), ∀ p ∈ eqImgPaths d, p ≠ [] := by
  intro d
  induction d with
  | nil => intro p hp; simp [eqImgPaths] at hp
  | elem nm attrs cs sib ihc ihs =>
    intro p hp
    rw [show eqImgPaths (.elem nm attrs cs sib)
        = (if isEqImg nm attrs then [[0]] else [])
            ++ (eqImgPaths cs).map (fun p => 0 :: p)
            ++ (eqImgPaths sib).map bumpPath from rfl] at hp
    rcases List.mem_append.mp hp with h1 | h2
    · rcases List.mem_append.mp h1 with h0 | hm
      · by_cases himg : isEqImg nm attrs = true
        · rw [himg] at h0
          simp at h0
          subst h0
          simp
        · rw [Bool.eq_false_iff.mpr himg] at h0
          simp at h0
      · rcases List.mem_map.mp hm with ⟨q, _, rfl⟩
        simp
    · rcases List.mem_map.mp h2 with ⟨q, hq, rfl⟩
      cases q with
      | nil => exact absurd rfl (ihs [] hq)
      | cons i t => simp [bumpPath]
  | textNode s sib ihs =>
    intro p hp
    rcases List.mem_map.mp (show p ∈ (eqImgPaths sib).map bumpPath from hp) with ⟨q, hq, rfl⟩
    cases q with
    | nil => exact absurd rfl (ihs [] hq)
    | cons i t => simp [bumpPath]
  | commentNode s sib ihs =>
    intro p hp
    rcases List.mem_map.mp (show p ∈ (eqImgPaths sib).map bumpPath from hp) with ⟨q, hq, rfl⟩
    cases q with
    | nil => exact absurd rfl (ihs [] hq)
    | cons i t => simp [bumpPath]

/-- Indexing a chain past its head indexes the sibling chain. -/
theorem chainGet_succ (d : Dom) (i : Nat) : chainGet d (i + 1) = chainGet (sibOf d) i := by
  cases d with
  | nil => cases i <;> rfl
  | elem _ _ _ _ => rfl
  | textNode _ _ => rfl
  | commentNode _ _ => rfl

/-- Navigating to child `i + 1` is navigating the sibling chain to `i`. -/
theorem nodeAt_succ (d : Dom) (i : Nat) (q : List Nat) :
    nodeAt d ((i + 1) :: q) = nodeAt (sibOf d) (i :: q) := by
  simp only [nodeAt]
  rw [chainGet_succ]

/-- Path `[0]` resolves to the detached head of the chain. -/
theorem nodeAt_zero_nil (nm : String) (attrs : List (String × String)) (cs sib : Dom) :
    nodeAt (.elem nm attrs cs sib) [0] = some (.elem nm attrs cs .nil) := rfl

/-- A path `0 :: q` with non-empty `q` descends into the head's children. -/
theorem nodeAt_zero_cons (nm : String) (attrs : List (String × String)) (cs sib : Dom)
    (q0 : Nat) (qs : List Nat) :
    nodeAt (.elem nm attrs cs sib) (0 :: q0 :: qs) = nodeAt cs (q0 :: qs) := rfl

/-- The replacement loop, started at counter `k`, rewrites the node at the
`j`-th placeholder path into the math span carrying equation `k + j` —
provided that equation exists. -/
theorem replaceImgs_at_paths (eqs : List String) : ∀ (d : Dom) (k j : Nat) (p : List Nat),
    imgsVoid d = true → (eqImgPaths d)[j]? = some p → k + j < eqs.length →
    nodeAt (replaceImgs eqs k d).1 p
      = some (.elem "span" [("class_", "math")]
          (.textNode (cleanupCode (eqs.getD (k + j) "")) .nil) .nil) := by
  intro d
  induction d with
  | nil =>
    intro k j p _ hp _
    simp [eqImgPaths] at hp
  | elem nm attrs cs sib ihc ihs =>
    intro k j p hv hp hlen
    obtain ⟨hv1, hv2, hv3⟩ := imgsVoid_parts _ _ _ _ hv
    by_cases himg : isEqImg nm attrs = true
    · have hcs : cs = Dom.nil := hv3 himg
      subst hcs
      have hk : k < eqs.length := by omega
      rw [replaceImgs_img_replace eqs k nm attrs Dom.nil sib himg hk]
      have hpaths : eqImgPaths (.elem nm attrs Dom.nil sib)
          = [0] :: (eqImgPaths sib).map bumpPath := by
        simp [eqImgPaths, himg]
      rw [hpaths] at hp
      cases j with
      | zero =>
        rw [List.getElem?_cons_zero] at hp
        have hpv : p = [0] := by
          injection hp with h0
          exact h0.symm
        subst hpv
        rfl
      | succ j0 =>
        rw [List.getElem?_cons_succ, List.getElem?_map] at hp
        cases hq : (eqImgPaths sib)[j0]? with
        | none => rw [hq] at hp; simp at hp
        | some q =>
          rw [hq] at hp
          have hpq : bumpPath q = p := by simpa using hp
          have hmem : q ∈ eqImgPaths sib := by
            obtain ⟨hlt, hEq⟩ := List.getElem?_eq_some.mp hq
            exact hEq ▸ List.getElem_mem _
          have hqne : q ≠ [] := eqImgPaths_ne_nil sib q hmem
          cases q with
          | nil => exact absurd rfl hqne
          | cons i t =>
            have hpv : p = (i + 1) :: t := by rw [← hpq]; rfl
            subst hpv
            rw [nodeAt_succ]
            show nodeAt ((replaceImgs eqs (k + 1) sib).1) (i :: t) = _
            have hres := ihs (k + 1) j0 (i :: t) hv2 (by rw [hq]) (by omega)
            rw [hres, show (k + 1) + j0 = k + (j0 + 1) by omega]
    · have hf : isEqImg nm attrs = false := Bool.eq_false_iff.mpr himg
      rw [replaceImgs_elem_plain eqs k nm attrs cs sib hf]
      have hpaths : eqImgPaths (.elem nm attrs cs sib)
          = (eqImgPaths cs).map (fun p => 0 :: p) ++ (eqImgPaths sib).map bumpPath := by
        simp [eqImgPaths, hf]
      rw [hpaths] at hp
      rw [List.getElem?_append] at hp
      have hlen1 : ((eqImgPaths cs).map (fun p => 0 :: p)).length = countEqImgs cs := by
        rw [List.length_map, eqImgPaths_length]
      by_cases hj : j < ((eqImgPaths cs).map (fun p => 0 :: p)).length
      · rw [if_pos hj, List.getElem?_map] at hp
        cases hq : (eqImgPaths cs)[j]? with
        | none => rw [hq] at hp; simp at hp
        | some q =>
          rw [hq] at hp
          have hpq : (0 :: q) = p := by simpa using hp
          have hmem : q ∈ eqImgPaths cs := by
            obtain ⟨hlt, hEq⟩ := List.getElem?_eq_some.mp hq
            exact hEq ▸ List.getElem_mem _
          have hqne : q ≠ [] := eqImgPaths_ne_nil cs q hmem
          cases q with
          | nil => exact absurd rfl hqne
          | cons q0 qs =>
            rw [← hpq, nodeAt_zero_cons]
            exact ihc k j (q0 :: qs) hv1 (by rw [hq]) hlen
      · rw [if_neg hj, List.getElem?_map] at hp
        have hj2 : countEqImgs cs ≤ j := by
          rw [hlen1] at hj
          omega
        rw [hlen1] at hp
        cases hq : (eqImgPaths sib)[j - countEqImgs cs]? with
        | none => rw [hq] at hp; simp at hp
        | some q =>
          rw [hq] at hp
          have hpq : bumpPath q = p := by simpa using hp
          have hmem : q ∈ eqImgPaths sib := by
            obtain ⟨hlt, hEq⟩ := List.getElem?_eq_some.mp hq
            exact hEq ▸ List.getElem_mem _
          have hqne : q ≠ [] := eqImgPaths_ne_nil sib q hmem
          cases q with
          | nil => exact absurd rfl hqne
          | cons i t =>
            have hpv : p = (i + 1) :: t := by rw [← hpq]; rfl
            subst hpv
            rw [nodeAt_succ]
            show nodeAt ((replaceImgs eqs ((replaceImgs eqs k cs).2) sib).1) (i :: t) = _
            rw [replaceImgs_counter eqs cs k hv1]
            have hres := ihs (k + countEqImgs cs) (j - countEqImgs cs) (i :: t) hv2
              (by rw [hq]) (by omega)
            rw [hres, show k + countEqImgs cs + (j - countEqImgs cs) = k + j by omega]
  | textNode s sib ihs =>
    intro k j p hv hp hlen
    rw [replaceImgs_textNode]
    rw [show eqImgPaths (.textNode s sib) = (eqImgPaths sib).map bumpPath from rfl,
      List.getElem?_map] at hp
    cases hq : (eqImgPaths sib)[j]? with
    | none => rw [hq] at hp; simp at hp
    | some q =>
      rw [hq] at hp
      have hpq : bumpPath q = p := by simpa using hp
      have hmem : q ∈ eqImgPaths sib := by
        obtain ⟨hlt, hEq⟩ := List.getElem?_eq_some.mp hq
        exact hEq ▸ List.getElem_mem _
      have hqne : q ≠ [] := eqImgPaths_ne_nil sib q hmem
      cases q with
      | nil => exact absurd rfl hqne
      | cons i t =>
        have hpv : p = (i + 1) :: t := by rw [← hpq]; rfl
        subst hpv
        rw [nodeAt_succ]
        show nodeAt ((replaceImgs eqs k sib).1) (i :: t) = _
        exact ihs k j (i :: t) hv (by rw [hq]) hlen
  | commentNode s sib ihs =>
    intro k j p hv hp hlen
    rw [replaceImgs_commentNode]
    rw [show eqImgPaths (.commentNode s sib) = (eqImgPaths sib).map bumpPath from rfl,
      List.getElem?_map] at hp
    cases hq : (eqImgPaths sib)[j]? with
    | none => rw [hq] at hp; simp at hp
    | some q =>
      rw [hq] at hp
      have hpq : bumpPath q = p := by simpa using hp
      have hmem : q ∈ eqImgPaths sib := by
        obtain ⟨hlt, hEq⟩ := List.getElem?_eq_some.mp hq
        exact hEq ▸ List.getElem_mem _
      have hqne : q ≠ [] := eqImgPaths_ne_nil sib q hmem
      cases q with
      | nil => exact absurd rfl hqne
      | cons i t =>
        have hpv : p = (i + 1) :: t := by rw [← hpq]; rfl
        subst hpv
        rw [nodeAt_succ]
        show nodeAt ((replaceImgs eqs k sib).1) (i :: t) = _
        exact ihs k j (i :: t) hv (by rw [hq]) hlen

/-- C2 amended: when the number of sentinel-comment equations equals the
number of class-less placeholder images, `convert_equations` replaces the
`j`-th placeholder (in document order, located by its `eqImgPaths` path) with
a math span whose text is the `j`-th extracted equation string after the
code's two cleanups: a space is substituted for each comment sigil that
immediately follows a newline, and all newlines are removed
(`cleanupCode`). -/
theorem matching_counts_substitute_each_image (d : Dom) (src : String)
    (hv : imgsVoid d = true)
    (hs : findMlSource d = some src)
    (hc : (extractEquations src).length = countEqImgs d) :
    ∀ (j : Nat) (p : List Nat), (eqImgPaths d)[j]? = some p →
      nodeAt (convert_equations d).doc p
        = some (.elem "span" [("class_", "math")]
            (.textNode (cleanupCode ((extractEquations src).getD j "")) .nil) .nil) := by
  intro j p hp
  have hdoc : (convert_equations d).doc = (replaceImgs (extractEquations src) 0 d).1 := by
    simp [convert_equations, hs]
  rw [hdoc]
  have hj : j < (eqImgPaths d).length := (List.getElem?_eq_some.mp hp).1
  have hlen : 0 + j < (extractEquations src).length := by
    rw [hc, ← eqImgPaths_length]
    omega
  have hmain := replaceImgs_at_paths (extractEquations src) d 0 j p hv hp hlen
  rw [show (0 : Nat) + j = j from Nat.zero_add j] at hmain
  exact hmain

/-- A matching-count document: one sentinel equation, one placeholder. -/
def dOneEqOneImg : Dom :=
  .elem "html" []
    (.commentNode "##### SOURCE BEGIN #####\n% $z$\n##### SOURCE END #####"
      (.elem "img" [("src", "eq1.png")] .nil .nil)) .nil

/-- Witness for the amended C2 at a concrete document. -/
theorem matching_counts_substitute_each_image_witness :
    nodeAt (convert_equations dOneEqOneImg).doc [0, 1]
      = some (.elem "span" [("class_", "math")]
          (.textNode (cleanupCode ((extractEquations
            "##### SOURCE BEGIN #####\n% $z$\n##### SOURCE END #####").getD 0 "")) .nil) .nil) :=
  matching_counts_substitute_each_image dOneEqOneImg
    "##### SOURCE BEGIN #####\n% $z$\n##### SOURCE END #####"
    (by decide) (by decide) (by decide) 0 [0, 1] (by decide)
